import Mathlib

/-!
Verification development for the pedicab layer-4 port forwarder.

The definitions below are a shallow embedding of the Rust sources:
  * the rule data model        (src/database/data/rule.rs, src/database/model/rule.rs)
  * the rule repository (DAL)  (pedicab_db/src/dal/rule.rs)
  * the forward manager        (src/forward/manager.rs)
  * the TCP forwarder          (src/forward/tcp.rs)
  * the UDP forwarder          (src/forward/udp.rs)
  * target selection helper    (src/forward/utils.rs)

Machine integers (u64) are modelled as `Nat`; where the Rust code can wrap
(release-mode u64 arithmetic) the wrap-around is written explicitly as
arithmetic modulo 2^64.  UUIDs are modelled as `Nat`.  Socket addresses are
modelled as pairs (host, port) of naturals.  The sled key-value store is an
association list together with the `__rule_index` list of ids.
-/

/-- UUIDs (the 128-bit rule identifiers) are modelled as naturals. -/
abbrev Uuid := Nat

/-- A socket address: (host, port). Only equality of addresses matters here. -/
abbrev SockAddr := Nat × Nat

/-- `RuleTargetPolicy` from src/database/data/rule.rs. -/
inductive RuleTargetPolicy where
  | fallback
  | roundRobin
  | leastConnections
  | random
deriving DecidableEq

/-- `RuleTarget` from src/database/data/rule.rs: upstream addresses plus policy. -/
structure RuleTarget where
  addrs : List SockAddr
  policy : RuleTargetPolicy
deriving DecidableEq

/-- `RuleProtocol` from src/database/data/rule.rs. -/
inductive RuleProtocol where
  | tcp
  | udp
  | tcpUdp
deriving DecidableEq

/-- `RuleConfig` from src/database/data/rule.rs. -/
structure RuleConfig where
  bandwidth : Option Nat
  connections : Option Nat
deriving DecidableEq

instance : Inhabited RuleConfig := ⟨⟨none, none⟩⟩

/-- `RuleStatus` from src/database/data/rule.rs; `Stopped` is the Rust default. -/
inductive RuleStatus where
  | running
  | stopped
  | error
deriving DecidableEq

instance : Inhabited RuleStatus := ⟨RuleStatus.stopped⟩

/-- `RuleStatsConnections` from src/database/data/rule.rs (both fields u64). -/
structure RuleStatsConnections where
  tcp : Nat
  udp : Nat
deriving DecidableEq

instance : Inhabited RuleStatsConnections := ⟨⟨0, 0⟩⟩

/-- `RuleStats` from src/database/data/rule.rs. -/
structure RuleStats where
  connections : RuleStatsConnections
  speed : Nat
  bandwidth : Nat
  failed_times : Nat
  last_failed_message : String
deriving DecidableEq

/-- `RuleStats::default()`: everything zeroed, empty message. -/
def statsDefault : RuleStats := ⟨⟨0, 0⟩, 0, 0, 0, ""⟩

instance : Inhabited RuleStats := ⟨statsDefault⟩

/-- `Rule` from src/database/model/rule.rs. -/
structure Rule where
  id : Uuid
  name : String
  listen : SockAddr
  target : RuleTarget
  protocol : RuleProtocol
  config : RuleConfig
  enabled : Bool
  status : RuleStatus
  stats : RuleStats
  remarks : String
deriving DecidableEq

/-- Encoding of a socket address into a natural, for the digest. -/
def encAddr (a : SockAddr) : Nat := Nat.pair a.1 a.2

/-- Encoding of a list of naturals into a natural, for the digest. -/
def encListNat : List Nat → Nat
  | [] => 0
  | x :: t => Nat.pair x (encListNat t) + 1

/-- Encoding of an optional natural into a natural, for the digest. -/
def encOptNat : Option Nat → Nat
  | none => 0
  | some x => x + 1

/-- Numeric tag of a target policy, for the digest. -/
def encPolicy : RuleTargetPolicy → Nat
  | .fallback => 0
  | .roundRobin => 1
  | .leastConnections => 2
  | .random => 3

/-- Numeric tag of a protocol, for the digest. -/
def encProtocol : RuleProtocol → Nat
  | .tcp => 0
  | .udp => 1
  | .tcpUdp => 2

/-- `Rule::digest_config` (src/database/model/rule.rs): a stable 64-bit hash of
the bincode encoding of exactly the fields `listen`, `target`, `protocol` and
`config`.  The concrete ahash function is opaque; it is modelled as an
executable encoding of exactly those four fields into a natural.  Only
equality and inequality of digests are used by the manager. -/
def Rule.digest_config (r : Rule) : Nat :=
  Nat.pair (encAddr r.listen)
    (Nat.pair (encListNat (r.target.addrs.map encAddr))
      (Nat.pair (encPolicy r.target.policy)
        (Nat.pair (encProtocol r.protocol)
          (Nat.pair (encOptNat r.config.bandwidth) (encOptNat r.config.connections)))))

/-! ## The durable store (sled) and the rule repository

pedicab_db/src/dal/rule.rs stores one key per rule id and one distinguished
`__rule_index` key holding the list of ids.  The store is modelled as an
association list `kv` (rule keys only) plus the decoded index list. -/

/-- Lookup in an association list keyed by `Uuid` (first match wins, like a
keyed store where `kvinsert` keeps keys unique). -/
def alookup (k : Uuid) : List (Uuid × α) → Option α
  | [] => none
  | (k', v) :: t => if k' = k then some v else alookup k t

/-- Keyed insert: replaces any existing binding of `k` (sled `insert`). -/
def kvinsert (k : Uuid) (v : α) (l : List (Uuid × α)) : List (Uuid × α) :=
  (k, v) :: l.filter (fun p => p.1 ≠ k)

/-- The durable store: rule keys plus the decoded `__rule_index`. -/
structure DbState where
  kv : List (Uuid × Rule)
  index : List Uuid
deriving DecidableEq

/-- The empty store (fresh database: no keys, no index entry). -/
def emptyDb : DbState := ⟨[], []⟩

/-- `CreateRuleParams` from pedicab_db/src/dal/rule.rs. -/
structure CreateRuleParams where
  name : String
  listen : SockAddr
  target : RuleTarget
  protocol : RuleProtocol
  config : Option RuleConfig
  enabled : Option Bool
  status : Option RuleStatus
  remarks : Option String
deriving DecidableEq

/-- `UpdateRuleParams` from pedicab_db/src/dal/rule.rs. -/
structure UpdateRuleParams where
  name : Option String
  listen : Option SockAddr
  target : Option RuleTarget
  protocol : Option RuleProtocol
  config : Option RuleConfig
  enabled : Option Bool
  status : Option RuleStatus
  remarks : Option String
deriving DecidableEq

namespace Dal

/-- `RuleDataAccessLayer::find_by_id`: fetch the rule stored under the id key. -/
def find_by_id (db : DbState) (id : Uuid) : Option Rule :=
  alookup id db.kv

/-- `RuleDataAccessLayer::find_all`: walk the index in order and fetch each
rule by id, silently skipping ids whose key is absent. -/
def find_all (db : DbState) : List Rule :=
  db.index.filterMap (fun id => alookup id db.kv)

/-- `RuleDataAccessLayer::create`: build the rule with defaulted fields,
insert its key, then append the id to the index if not already present.
The fresh UUIDv7 is passed in as `id`. -/
def create (db : DbState) (id : Uuid) (p : CreateRuleParams) : Rule × DbState :=
  let rule : Rule :=
    { id := id
      name := p.name
      listen := p.listen
      target := p.target
      protocol := p.protocol
      config := p.config.getD default
      enabled := p.enabled.getD false
      status := p.status.getD RuleStatus.stopped
      stats := statsDefault
      remarks := p.remarks.getD "" }
  (rule, { kv := kvinsert id rule db.kv
           index := if id ∈ db.index then db.index else db.index ++ [id] })

/-- `RuleDataAccessLayer::update`: patch any subset of mutable fields;
`none` models the `NotFound` error (the store is left unchanged). -/
def update (db : DbState) (id : Uuid) (p : UpdateRuleParams) : Option (Rule × DbState) :=
  match alookup id db.kv with
  | none => none
  | some r =>
    let r' : Rule :=
      { r with
        name := p.name.getD r.name
        listen := p.listen.getD r.listen
        target := p.target.getD r.target
        protocol := p.protocol.getD r.protocol
        config := p.config.getD r.config
        enabled := p.enabled.getD r.enabled
        status := p.status.getD r.status
        remarks := p.remarks.getD r.remarks }
    some (r', { db with kv := kvinsert id r' db.kv })

/-- `RuleDataAccessLayer::update_status`: field-scoped write; `none` is `NotFound`. -/
def update_status (db : DbState) (id : Uuid) (st : RuleStatus) : Option DbState :=
  match alookup id db.kv with
  | none => none
  | some r => some { db with kv := kvinsert id { r with status := st } db.kv }

/-- `RuleDataAccessLayer::update_stats`: field-scoped write; `none` is `NotFound`. -/
def update_stats (db : DbState) (id : Uuid) (st : RuleStats) : Option DbState :=
  match alookup id db.kv with
  | none => none
  | some r => some { db with kv := kvinsert id { r with stats := st } db.kv }

/-- `RuleDataAccessLayer::enable`: sets `enabled = true`, `status = Stopped`. -/
def enable (db : DbState) (id : Uuid) : Option DbState :=
  match alookup id db.kv with
  | none => none
  | some r => some { db with kv := kvinsert id { r with enabled := true, status := RuleStatus.stopped } db.kv }

/-- `RuleDataAccessLayer::disable`: sets `enabled = false`, `status = Stopped`. -/
def disable (db : DbState) (id : Uuid) : Option DbState :=
  match alookup id db.kv with
  | none => none
  | some r => some { db with kv := kvinsert id { r with enabled := false, status := RuleStatus.stopped } db.kv }

/-- `RuleDataAccessLayer::delete`: remove the key and all occurrences of the
id in the index; returns whether the key existed. -/
def delete (db : DbState) (id : Uuid) : Bool × DbState :=
  if (alookup id db.kv).isSome then
    (true, { kv := db.kv.filter (fun p => p.1 ≠ id)
             index := db.index.filter (fun k => k ≠ id) })
  else
    (false, db)

end Dal

/-- One repository operation, as invoked by the control plane or the manager. -/
inductive RepoOp where
  | createOp (id : Uuid) (p : CreateRuleParams)
  | updateOp (id : Uuid) (p : UpdateRuleParams)
  | updateStatusOp (id : Uuid) (st : RuleStatus)
  | updateStatsOp (id : Uuid) (st : RuleStats)
  | enableOp (id : Uuid)
  | disableOp (id : Uuid)
  | deleteOp (id : Uuid)

/-- Apply one repository operation; a `NotFound` result leaves the store unchanged
(the Rust mutators return `Err` before writing anything in that case). -/
def applyOp (db : DbState) : RepoOp → DbState
  | .createOp id p => (Dal.create db id p).2
  | .updateOp id p => match Dal.update db id p with
    | none => db
    | some (_, db') => db'
  | .updateStatusOp id st => (Dal.update_status db id st).getD db
  | .updateStatsOp id st => (Dal.update_stats db id st).getD db
  | .enableOp id => (Dal.enable db id).getD db
  | .disableOp id => (Dal.disable db id).getD db
  | .deleteOp id => (Dal.delete db id).2

/-- Apply a sequence of repository operations, oldest first. -/
def applyOps (ops : List RepoOp) (db : DbState) : DbState :=
  ops.foldl applyOp db

/-- Well-formedness of the store, maintained by every repository operation:
every indexed id has a key, every key is indexed, and the rule stored under a
key carries that key as its id. -/
def DbWF (db : DbState) : Prop :=
  (∀ id ∈ db.index, (alookup id db.kv).isSome = true) ∧
  (∀ p ∈ db.kv, p.1 ∈ db.index ∧ Rule.id p.2 = p.1)

instance (db : DbState) : Decidable (DbWF db) := by
  unfold DbWF
  infer_instance

/-! ## The forward manager (src/forward/manager.rs)

`ForwardManager` owns the supervised list `rules : Vec<(Uuid, u64)>` (id and
config digest) and the task table `tasks : HashMap<Uuid, JoinHandle>`, both
behind tokio `RwLock`s, plus the moka stats cache.  Task handles carry no
observable data, so the task table is modelled by its key set; the cache is a
keyed association list. -/

/-- The manager state: the store it talks to, the supervised `(id, digest)`
list, the task-table key set, and the stats cache. -/
structure MgrState where
  db : DbState
  rules : List (Uuid × Nat)
  tasks : List Uuid
  cache : List (Uuid × RuleStats)
deriving DecidableEq

/-- `HashMap::insert` on the task table, viewed on keys. -/
def tasksInsert (id : Uuid) (l : List Uuid) : List Uuid :=
  if id ∈ l then l else id :: l

/-- `HashMap::remove` on the task table, viewed on keys. -/
def tasksRemove (id : Uuid) (l : List Uuid) : List Uuid :=
  l.filter (fun k => k ≠ id)

/-- `current_rules.iter().position(...)` followed by `remove(i)`: drop the
first supervised entry with the given id (manager.rs, `stop_rule`). -/
def removeFirstRule (id : Uuid) : List (Uuid × Nat) → List (Uuid × Nat)
  | [] => []
  | p :: t => if p.1 = id then t else p :: removeFirstRule id t

/-- `update_status` with the `let _ = ...` / error-ignored calling convention:
on `NotFound` the store is unchanged. -/
def update_statusD (db : DbState) (id : Uuid) (st : RuleStatus) : DbState :=
  (Dal.update_status db id st).getD db

/-- `update_stats` with errors ignored (flush_stats logs and continues). -/
def update_statsD (db : DbState) (id : Uuid) (st : RuleStats) : DbState :=
  (Dal.update_stats db id st).getD db

/-- `ForwardManager::start_rule` (manager.rs 161-225): load the rule, reject
missing or disabled rules, record the task handle under `rule.id`, then set
the persisted status to `Running` (propagating a `NotFound` from that write
after the task was already inserted, as the `?` in the source does). -/
def start_rule (s : MgrState) (id : Uuid) : Except String Unit × MgrState :=
  match Dal.find_by_id s.db id with
  | none => (.error "rule not found", s)
  | some r =>
    if r.enabled = false then
      (.error "rule is disabled", s)
    else
      let s1 := { s with tasks := tasksInsert r.id s.tasks }
      match Dal.update_status s1.db id RuleStatus.running with
      | none => (.error "rule not found", s1)
      | some db' => (.ok (), { s1 with db := db' })

/-- `ForwardManager::stop_rule` (manager.rs 227-251): best-effort — remove the
task handle, persist `status = Stopped` (errors ignored), drop the first
supervised entry with this id; report `"rule not found"` exactly when no task
handle was registered. -/
def stop_rule (s : MgrState) (id : Uuid) : Except String Unit × MgrState :=
  let hadTask := id ∈ s.tasks
  let s1 : MgrState :=
    { s with
      tasks := tasksRemove id s.tasks
      db := update_statusD s.db id RuleStatus.stopped
      rules := removeFirstRule id s.rules }
  if hadTask then (.ok (), s1) else (.error "rule not found", s1)

/-- `ForwardManager::restart_rule` (manager.rs 253-257): `stop_rule(id).await?`
then `start_rule(id).await?`. -/
def restart_rule (s : MgrState) (id : Uuid) : Except String Unit × MgrState :=
  match stop_rule s id with
  | (.error e, s1) => (.error e, s1)
  | (.ok _, s1) => start_rule s1 id

/-- The start condition of the reconcile pass (manager.rs 99): enabled and not
currently supervised.  `supervised` is the snapshot taken under the write
lock; the pass never appends to it while iterating. -/
def startCond (supervised : List (Uuid × Nat)) (r : Rule) : Bool :=
  r.enabled && !(supervised.any (fun p => p.1 == r.id))

/-- The sequence of `start_rule` calls made by one reconcile pass: fold over
the eligible rules in persisted order, starting each rule that satisfies
`startCond` (results are discarded with `let _ = ...` in the source). -/
def foldStart (supervised : List (Uuid × Nat)) (l : List Rule) (acc : MgrState) : MgrState :=
  l.foldl (fun acc r => if startCond supervised r then (start_rule acc r.id).2 else acc) acc

/-- `ForwardManager::load_rules` (manager.rs 80-130), one reconcile pass.

The source takes the `rules` write lock (line 88) and holds it for the whole
pass; `stop_rule` (line 230) re-acquires that same write lock.  tokio's
`RwLock` is not reentrant, so every execution that reaches a `stop_rule` call
inside `load_rules` — a supervised rule that was deleted or disabled (line
93), or a supervised rule whose digest changed (line 109) — blocks forever on
a lock its own task holds.  Such a pass never completes and is modelled as
`none`.  A pass that completes performs, in source order: start every
enabled, non-`Error`, unsupervised persisted rule, then replace the
supervised list with `{(id, digest) | enabled ∧ status ≠ Error}` computed
from the snapshot fetched at entry. -/
def load_rules (s : MgrState) : Option MgrState :=
  let dbRules := Dal.find_all s.db
  if s.rules.any (fun p => !(dbRules.any (fun r => r.id == p.1 && r.enabled))) then
    none
  else
    let eligible := dbRules.filter (fun r => r.status ≠ RuleStatus.error)
    if eligible.any (fun r => s.rules.any (fun p => p.1 == r.id && p.2 ≠ r.digest_config)) then
      none
    else
      let s' := foldStart s.rules eligible s
      let wanted := (dbRules.filter (fun r => r.enabled && r.status ≠ RuleStatus.error)).map
        (fun r => (r.id, r.digest_config))
      some { s' with rules := wanted }

/-- `ForwardManager::get_stats` (manager.rs 263-271): cached entries restricted
to currently supervised rule ids. -/
def get_stats (s : MgrState) : List (Uuid × RuleStats) :=
  s.cache.filter (fun p => s.rules.any (fun q => q.1 == p.1))

/-- The write loop of `flush_stats`: for each collected `(id, stat)` pair
whose id appears among the fetched persisted rules, `update_stats`, errors
ignored. -/
def flushFold (dbRules : List Rule) (l : List (Uuid × RuleStats)) (db : DbState) : DbState :=
  l.foldl
    (fun db p => if dbRules.any (fun r => r.id == p.1) then update_statsD db p.1 p.2 else db)
    db

/-- `ForwardManager::flush_stats` (manager.rs 273-297): fetch the persisted
rules, take `get_stats()` (supervised entries only), and `update_stats` every
entry whose id is persisted, ignoring errors. -/
def flush_stats (s : MgrState) : MgrState :=
  let dbRules := Dal.find_all s.db
  let stats := get_stats s
  { s with db := flushFold dbRules stats s.db }

/-- `ForwardManager::reset_stat` (manager.rs 299-309): overwrite the cached
entry with zeroed `RuleStats::default()` when present. -/
def reset_stat (s : MgrState) (id : Uuid) : Except String Unit × MgrState :=
  if (alookup id s.cache).isSome then
    (.ok (), { s with cache := kvinsert id statsDefault s.cache })
  else
    (.error "rule not found", s)

/-! ## The TCP forwarder (src/forward/tcp.rs) -/

/-- 2^64, the modulus of release-mode u64 arithmetic. -/
def u64Mod : Nat := 18446744073709551616

/-- Wrapping u64 addition (release build semantics). -/
def u64add (a b : Nat) : Nat := (a + b) % u64Mod

/-- Wrapping u64 subtraction (release build semantics): `a - b` on u64. -/
def u64sub (a b : Nat) : Nat := (a % u64Mod + (u64Mod - b % u64Mod)) % u64Mod

/-- The handler-entry bookkeeping (tcp.rs 119-133): read-modify-write the
cached stats, incrementing `connections.tcp` by one. -/
def tcpHandlerEnter (st : RuleStats) : RuleStats :=
  { st with connections := { st.connections with tcp := u64add st.connections.tcp 1 } }

/-- The handler-exit bookkeeping (tcp.rs 346-360): read-modify-write the
cached stats, decrementing `connections.tcp` by an unchecked u64 subtraction
(`prev_stats.connections.tcp - 1`, tcp.rs 353). -/
def tcpHandlerExit (st : RuleStats) : RuleStats :=
  { st with connections := { st.connections with tcp := u64sub st.connections.tcp 1 } }

/-- The net effect of one `handle_connection` execution (tcp.rs 107-366) on
the rule's cached `connections` counters, absent interference: the increment
always runs (before `TcpStream::connect`); the decrement sits inside the
`Ok` arm of the connect `match` only, so a failed connect returns without it.
The relay loops and the per-connection stats updater between entry and exit
preserve the `connections` field (`..prev_stats` keeps it). -/
def handle_connection_conns (st : RuleStats) (connectOk : Bool) : RuleStats :=
  if connectOk then tcpHandlerExit (tcpHandlerEnter st) else tcpHandlerEnter st

/-- The per-connection upstream choice actually made by the TCP accept loop
(tcp.rs 89): `rule.target.addrs[0]`, for every accepted connection and every
policy.  `none` models the index panic on an empty address list. -/
def tcpAcceptTarget (r : Rule) : Option SockAddr :=
  r.target.addrs.get? 0

/-- `select_target` (src/forward/utils.rs 42-62), the policy-dispatch helper:
Fallback takes index 0; RoundRobin takes the process-wide counter modulo the
address count (`counter` is the fetch_add snapshot for this call); Random and
LeastConnections take a uniformly drawn index (`randIdx`, the value of
`rng.random_range(0..len)`). -/
def select_target (t : RuleTarget) (counter : Nat) (randIdx : Nat) : Option SockAddr :=
  match t.policy with
  | .fallback => t.addrs.get? 0
  | .roundRobin => t.addrs.get? (counter % t.addrs.length)
  | .random => t.addrs.get? randIdx
  | .leastConnections => t.addrs.get? randIdx

/-! ## The UDP session task (src/forward/udp.rs, `create_target_session`)

A datagram payload is a byte list (bytes as naturals).  The outcome of each
`send` on the connected target socket is modelled by an oracle mapping the
attempted payload to `none` (success) or `some` error carrying
`raw_os_error()`. -/

/-- An I/O error as observed by the session loop: its `raw_os_error()` value. -/
structure SendErr where
  rawOsError : Option Int
deriving DecidableEq

/-- The outcome of `target_socket.send(payload)` for each payload. -/
abbrev SendOracle := List Nat → Option SendErr

/-- Splitting a payload into consecutive `n`-byte chunks; `fuel` bounds the
recursion (any `fuel ≥ length` gives the full chunk list). -/
def chunksOfAux (n : Nat) : Nat → List Nat → List (List Nat)
  | 0, _ => []
  | _ + 1, [] => []
  | fuel + 1, d => d.take n :: chunksOfAux n fuel (d.drop n)

/-- The consecutive `n`-byte chunks of `d` (last chunk possibly shorter). -/
def chunksOf (n : Nat) (d : List Nat) : List (List Nat) :=
  chunksOfAux n d.length d

/-- The fragment loop of udp.rs 272-282: walk the payload in 8192-byte steps
(`end = min(offset + 8192, len)`), send each fragment, break on the first
send error.  Returns the successfully sent fragments, in order. -/
def sendFragmentsAux (send : SendOracle) : Nat → List Nat → List (List Nat)
  | 0, _ => []
  | _ + 1, [] => []
  | fuel + 1, d =>
    let frag := d.take 8192
    match send frag with
    | none => frag :: sendFragmentsAux send fuel (d.drop 8192)
    | some _ => []

/-- The fragments of `d` successfully sent by the fragment loop. -/
def sendFragments (send : SendOracle) (d : List Nat) : List (List Nat) :=
  sendFragmentsAux send d.length d

/-- Whether the session loop keeps running after handling one inbound payload. -/
inductive SessionStep where
  | cont
  | halt
deriving DecidableEq

/-- Handling of one payload received from the client channel (udp.rs 263-295):
try a single send; on success continue.  On failure with payload > 16000
bytes and `raw_os_error() == Some(40)` (EMSGSIZE), run the fragment loop and
continue regardless of fragment errors; any other failure breaks the session
loop.  Returns the successfully sent datagrams and the loop disposition. -/
def inboundStep (send : SendOracle) (data : List Nat) : List (List Nat) × SessionStep :=
  if data.length > 16000 then
    match send data with
    | none => ([data], .cont)
    | some e =>
      match e.rawOsError with
      | some code => if code = 40 then (sendFragments send data, .cont) else ([], .halt)
      | none => ([], .halt)
  else
    match send data with
    | none => ([data], .cont)
    | some _ => ([], .halt)

/-! ## Concrete states used by counterexamples and witnesses -/

/-- A minimal rule with the given id, enabled flag and status. -/
def mkRule (id : Uuid) (enabled : Bool) (status : RuleStatus) : Rule :=
  { id := id
    name := ""
    listen := (0, 9000)
    target := ⟨[(10, 1)], RuleTargetPolicy.fallback⟩
    protocol := RuleProtocol.tcp
    config := default
    enabled := enabled
    status := status
    stats := statsDefault
    remarks := "" }

/-- A persisted rule that is enabled but was pushed to `Error` by a failing
forwarder (e.g. a bind failure) while still supervised. -/
def c1Rule : Rule := mkRule 1 true RuleStatus.error

/-- Manager state supervising `c1Rule` with its task still registered. -/
def c1s0 : MgrState :=
  ⟨⟨[(1, c1Rule)], [1]⟩, [(1, c1Rule.digest_config)], [1], []⟩

/-- The state `load_rules` produces from `c1s0`: the supervised list drops the
`Error` rule but its task handle survives. -/
def c1s1 : MgrState := { c1s0 with rules := [] }

/-- Manager state supervising a rule that is no longer persisted (deleted, or
disabled): the next reconcile pass must stop it. -/
def c2s0 : MgrState := ⟨emptyDb, [(1, 0)], [1], []⟩

/-- A persisted, enabled, running rule with zeroed persisted stats. -/
def c3Rule : Rule := mkRule 1 true RuleStatus.running

/-- Cached stats holding accumulated bandwidth not yet flushed. -/
def c3st5 : RuleStats := { statsDefault with bandwidth := 5 }

/-- State where rule 1 is persisted and cached but not currently supervised. -/
def c3cex0 : MgrState := ⟨⟨[(1, c3Rule)], [1]⟩, [], [], [(1, c3st5)]⟩

/-- State where rule 1 is persisted, cached and supervised. -/
def c3sup0 : MgrState :=
  ⟨⟨[(1, c3Rule)], [1]⟩, [(1, c3Rule.digest_config)], [1], [(1, c3st5)]⟩

/-- A RoundRobin rule with two distinct upstream addresses. -/
def c4Rule : Rule :=
  { mkRule 2 true RuleStatus.running with
    target := ⟨[(10, 1), (10, 2)], RuleTargetPolicy.roundRobin⟩ }

/-- Manager state with rule 1 persisted, supervised and its task registered. -/
def c6s0 : MgrState :=
  ⟨⟨[(1, c3Rule)], [1]⟩, [(1, c3Rule.digest_config)], [1], []⟩

/-- Manager state where rule 1 is persisted and enabled but no task handle is
registered for it. -/
def c10s0 : MgrState :=
  ⟨⟨[(1, c3Rule)], [1]⟩, [], [], []⟩

/-- A send oracle under which any datagram over 16000 bytes fails with OS
error 40 (EMSGSIZE) and every smaller send succeeds. -/
def sendOracle0 : SendOracle :=
  fun d => if d.length > 16000 then some ⟨some (40 : Int)⟩ else none

/-- A 16001-byte payload, large enough to trigger the fragmentation path. -/
def data0 : List Nat := List.replicate 16001 0

/-- Concrete creation parameters used to instantiate repository theorems. -/
def cparamsA : CreateRuleParams :=
  ⟨"r1", (0, 9000), ⟨[(10, 1)], RuleTargetPolicy.fallback⟩, RuleProtocol.tcp,
    none, some true, none, none⟩

/-! # Helper lemmas on the keyed store -/

theorem alookup_filter_ne {k x : Uuid} (h : x ≠ k) (l : List (Uuid × α)) :
    alookup x (l.filter (fun p => p.1 ≠ k)) = alookup x l := by
  induction l with
  | nil => rfl
  | cons p t ih =>
    by_cases hp : p.1 = k
    · have hx : p.1 ≠ x := by rw [hp]; exact fun e => h e.symm
      cases p with
      | mk a b => simp_all [List.filter_cons, alookup]
    · cases p with
      | mk a b =>
        by_cases hax : a = x <;> simp_all [List.filter_cons, alookup]

theorem alookup_kvinsert_self (k : Uuid) (v : α) (l : List (Uuid × α)) :
    alookup k (kvinsert k v l) = some v := by
  simp [kvinsert, alookup]

theorem alookup_kvinsert_ne {k x : Uuid} (h : x ≠ k) (v : α) (l : List (Uuid × α)) :
    alookup x (kvinsert k v l) = alookup x l := by
  have hk : k ≠ x := fun e => h e.symm
  simp only [kvinsert, alookup, if_neg hk]
  exact alookup_filter_ne h l

theorem mem_of_alookup {k : Uuid} {v : α} {l : List (Uuid × α)}
    (h : alookup k l = some v) : (k, v) ∈ l := by
  induction l with
  | nil => simp [alookup] at h
  | cons p t ih =>
    cases p with
    | mk a b =>
      by_cases ha : a = k
      · subst ha
        simp [alookup] at h
        simp [h]
      · simp [alookup, ha] at h
        simp [ih h]

theorem alookup_isSome_of_mem {p : Uuid × α} {l : List (Uuid × α)}
    (h : p ∈ l) : (alookup p.1 l).isSome = true := by
  induction l with
  | nil => simp at h
  | cons q t ih =>
    cases q with
    | mk a b =>
      by_cases ha : a = p.1
      · simp [alookup, ha]
      · rcases List.mem_cons.mp h with he | ht
        · rw [he] at ha; simp at ha
        · simp [alookup, ha, ih ht]

/-! # C7 development: the index is the authoritative enumeration -/

theorem dbwf_empty : DbWF emptyDb := by
  constructor <;> simp [emptyDb]

theorem dbwf_kvinsert_replace (db : DbState) (h : DbWF db) (k : Uuid) (r r' : Rule)
    (hl : alookup k db.kv = some r) (hid : r'.id = r.id) :
    DbWF { db with kv := kvinsert k r' db.kv } := by
  obtain ⟨h1, h2⟩ := h
  have hmem := mem_of_alookup hl
  have hkidx : k ∈ db.index := (h2 _ hmem).1
  have hrid : r.id = k := (h2 _ hmem).2
  constructor
  · intro id hidm
    by_cases he : id = k
    · subst he; simp [alookup_kvinsert_self]
    · rw [alookup_kvinsert_ne he]; exact h1 id hidm
  · intro p hp
    simp only [kvinsert, List.mem_cons] at hp
    rcases hp with he | hf
    · subst he
      exact ⟨hkidx, by simpa using hid.trans hrid⟩
    · exact h2 p (List.mem_of_mem_filter hf)

theorem dbwf_applyOp (db : DbState) (h : DbWF db) (op : RepoOp) : DbWF (applyOp db op) := by
  cases op with
  | createOp id p =>
    simp only [applyOp, Dal.create]
    obtain ⟨h1, h2⟩ := h
    constructor
    · intro x hx
      by_cases he : x = id
      · subst he; simp [alookup_kvinsert_self]
      · rw [alookup_kvinsert_ne he]
        apply h1
        by_cases hm : id ∈ db.index <;> simp_all
    · intro q hq
      simp only [kvinsert, List.mem_cons] at hq
      rcases hq with he | hf
      · subst he
        refine ⟨?_, rfl⟩
        by_cases hm : id ∈ db.index <;> simp [hm]
      · have hq' := h2 q (List.mem_of_mem_filter hf)
        refine ⟨?_, hq'.2⟩
        by_cases hm : id ∈ db.index <;> simp [hm, hq'.1]
  | updateOp id p =>
    simp only [applyOp, Dal.update]
    cases heq : alookup id db.kv with
    | none => simpa using h
    | some r =>
      simp only
      exact dbwf_kvinsert_replace db h id r _ heq rfl
  | updateStatusOp id st =>
    simp only [applyOp, Dal.update_status]
    cases heq : alookup id db.kv with
    | none => simpa using h
    | some r =>
      simp only [Option.getD_some]
      exact dbwf_kvinsert_replace db h id r _ heq rfl
  | updateStatsOp id st =>
    simp only [applyOp, Dal.update_stats]
    cases heq : alookup id db.kv with
    | none => simpa using h
    | some r =>
      simp only [Option.getD_some]
      exact dbwf_kvinsert_replace db h id r _ heq rfl
  | enableOp id =>
    simp only [applyOp, Dal.enable]
    cases heq : alookup id db.kv with
    | none => simpa using h
    | some r =>
      simp only [Option.getD_some]
      exact dbwf_kvinsert_replace db h id r _ heq rfl
  | disableOp id =>
    simp only [applyOp, Dal.disable]
    cases heq : alookup id db.kv with
    | none => simpa using h
    | some r =>
      simp only [Option.getD_some]
      exact dbwf_kvinsert_replace db h id r _ heq rfl
  | deleteOp id =>
    simp only [applyOp, Dal.delete]
    obtain ⟨h1, h2⟩ := h
    by_cases hs : (alookup id db.kv).isSome = true
    · simp only [hs, if_true]
      constructor
      · intro x hx
        have hx' := List.mem_filter.mp hx
        have hxne : x ≠ id := by simpa using hx'.2
        rw [alookup_filter_ne hxne]
        exact h1 x hx'.1
      · intro q hq
        have hq' := List.mem_filter.mp hq
        have hqne : q.1 ≠ id := by simpa using hq'.2
        have hh := h2 q hq'.1
        exact ⟨List.mem_filter.mpr ⟨hh.1, by simpa using hqne⟩, hh.2⟩
    · simp only [hs]
      simpa using ⟨h1, h2⟩

theorem dbwf_applyOps (ops : List RepoOp) : DbWF (applyOps ops emptyDb) := by
  suffices hgen : ∀ db, DbWF db → DbWF (applyOps ops db) from hgen emptyDb dbwf_empty
  induction ops with
  | nil => intro db h; simpa [applyOps] using h
  | cons op t ih =>
    intro db h
    have : applyOps (op :: t) db = applyOps t (applyOp db op) := by
      simp [applyOps]
    rw [this]
    exact ih _ (dbwf_applyOp db h op)

theorem find_all_map_id_aux (kv : List (Uuid × Rule))
    (h2 : ∀ p ∈ kv, Rule.id p.2 = p.1) :
    ∀ l : List Uuid, (∀ id ∈ l, (alookup id kv).isSome = true) →
      (l.filterMap (fun id => alookup id kv)).map Rule.id = l := by
  intro l
  induction l with
  | nil => simp
  | cons a t ih =>
    intro hall
    have ha := hall a (by simp)
    obtain ⟨r, hr⟩ := Option.isSome_iff_exists.mp ha
    have hrid : r.id = a := h2 _ (mem_of_alookup hr)
    have ht := ih (fun id hid => hall id (by simp [hid]))
    simp [List.filterMap_cons, hr, hrid, ht]

/-- C7 (confirmed).  After any sequence of repository operations starting from
the fresh store, `find_all` returns exactly the rules whose ids are in the
rule index, in index order (their ids enumerate the index), and a rule whose
key is present but whose id is absent from the index is never returned. -/
theorem find_all_matches_index (ops : List RepoOp) :
    (Dal.find_all (applyOps ops emptyDb)).map Rule.id = (applyOps ops emptyDb).index ∧
    ∀ k r, Dal.find_by_id (applyOps ops emptyDb) k = some r →
      k ∉ (applyOps ops emptyDb).index → r ∉ Dal.find_all (applyOps ops emptyDb) := by
  have hwf := dbwf_applyOps ops
  constructor
  · exact find_all_map_id_aux (applyOps ops emptyDb).kv
      (fun p hp => (hwf.2 p hp).2) (applyOps ops emptyDb).index hwf.1
  · intro k r hfind hnot hmem
    simp only [Dal.find_all, List.mem_filterMap] at hmem
    obtain ⟨id, hidmem, hid⟩ := hmem
    have h1 : r.id = id := (hwf.2 _ (mem_of_alookup hid)).2
    have h2 : r.id = k := (hwf.2 _ (mem_of_alookup hfind)).2
    exact hnot (h2 ▸ h1 ▸ hidmem)

/-- C7 witness: the theorem instantiated on a concrete operation sequence. -/
theorem find_all_matches_index_inst :
    (Dal.find_all (applyOps [RepoOp.createOp 1 cparamsA, RepoOp.enableOp 1, RepoOp.deleteOp 2]
        emptyDb)).map Rule.id
      = (applyOps [RepoOp.createOp 1 cparamsA, RepoOp.enableOp 1, RepoOp.deleteOp 2]
        emptyDb).index :=
  (find_all_matches_index [RepoOp.createOp 1 cparamsA, RepoOp.enableOp 1, RepoOp.deleteOp 2]).1

/-! # C6 development: stop_rule is best-effort and total in its effects -/

theorem not_mem_removeFirstRule (id : Uuid) (l : List (Uuid × Nat))
    (h : (l.map Prod.fst).Nodup) : id ∉ (removeFirstRule id l).map Prod.fst := by
  induction l with
  | nil => simp [removeFirstRule]
  | cons p t ih =>
    simp only [List.map_cons, List.nodup_cons] at h
    by_cases hp : p.1 = id
    · simp only [removeFirstRule, hp, if_true]
      exact hp ▸ h.1
    · simp only [removeFirstRule, hp, if_false, List.map_cons]
      intro hmem
      rcases List.mem_cons.mp hmem with he | hm
      · exact hp he.symm
      · exact ih h.2 hm

theorem not_mem_tasksRemove (id : Uuid) (l : List Uuid) : id ∉ tasksRemove id l := by
  simp [tasksRemove, List.mem_filter]

/-- C6 (confirmed).  `stop_rule(id)` always removes `id` from the task table
and from the supervised list, and persists `status = Stopped` whenever a rule
with that id is persisted — all regardless of its result; it returns the
error `"rule not found"` exactly when no task handle was registered for `id`.
The supervised list is assumed to have pairwise distinct ids, which holds for
every list the manager builds (it mirrors the indexed store). -/
theorem stop_rule_spec (s : MgrState) (id : Uuid)
    (hnd : (s.rules.map Prod.fst).Nodup) :
    id ∉ (stop_rule s id).2.tasks ∧
    id ∉ (stop_rule s id).2.rules.map Prod.fst ∧
    (∀ r, Dal.find_by_id s.db id = some r →
      Dal.find_by_id (stop_rule s id).2.db id = some { r with status := RuleStatus.stopped }) ∧
    (((stop_rule s id).1 = Except.error "rule not found") ↔ id ∉ s.tasks) := by
  have hsnd : (stop_rule s id).2 =
      { s with
        tasks := tasksRemove id s.tasks
        db := update_statusD s.db id RuleStatus.stopped
        rules := removeFirstRule id s.rules } := by
    unfold stop_rule
    by_cases ht : id ∈ s.tasks <;> simp [ht]
  refine ⟨?_, ?_, ?_, ?_⟩
  · rw [hsnd]; exact not_mem_tasksRemove id s.tasks
  · rw [hsnd]; exact not_mem_removeFirstRule id s.rules hnd
  · intro r hr
    rw [hsnd]
    simp only [Dal.find_by_id] at hr ⊢
    simp [update_statusD, Dal.update_status, hr, alookup_kvinsert_self]
  · unfold stop_rule
    by_cases ht : id ∈ s.tasks <;> simp [ht]

/-- C6 witness: the theorem instantiated at a state supervising rule 1 with a
registered task. -/
theorem stop_rule_spec_inst :
    1 ∉ (stop_rule c6s0 1).2.tasks ∧
    1 ∉ (stop_rule c6s0 1).2.rules.map Prod.fst ∧
    (∀ r, Dal.find_by_id c6s0.db 1 = some r →
      Dal.find_by_id (stop_rule c6s0 1).2.db 1 = some { r with status := RuleStatus.stopped }) ∧
    (((stop_rule c6s0 1).1 = Except.error "rule not found") ↔ 1 ∉ c6s0.tasks) :=
  stop_rule_spec c6s0 1 (by decide)

/-! # C10 development: restart_rule propagates the stop_rule error -/

/-- C10 (confirmed).  Whenever no task handle is registered for `id`,
`restart_rule(id)` returns the `"rule not found"` error of `stop_rule` and
never calls `start_rule`: its final state is exactly `stop_rule`'s state, in
which no task runs for `id` (the rule is left not started). -/
theorem restart_rule_propagates_stop_error (s : MgrState) (id : Uuid)
    (h : id ∉ s.tasks) :
    restart_rule s id = (Except.error "rule not found", (stop_rule s id).2) ∧
    id ∉ (restart_rule s id).2.tasks := by
  have hstop1 : (stop_rule s id).1 = Except.error "rule not found" := by
    unfold stop_rule; simp [h]
  have hres : restart_rule s id = (Except.error "rule not found", (stop_rule s id).2) := by
    unfold restart_rule
    cases heq : stop_rule s id with
    | mk res s1 =>
      cases res with
      | error e =>
        have : e = "rule not found" := by
          have := hstop1; rw [heq] at this; simpa using this
        simp [this]
      | ok u =>
        rw [heq] at hstop1
        simp at hstop1
  refine ⟨hres, ?_⟩
  rw [hres]
  have hsnd : (stop_rule s id).2.tasks = tasksRemove id s.tasks := by
    unfold stop_rule
    by_cases ht : id ∈ s.tasks <;> simp [ht]
  rw [hsnd]
  exact not_mem_tasksRemove id s.tasks

/-- C10 witness: rule 1 is persisted and enabled but has no registered task;
restarting it fails with `"rule not found"` and leaves it not started. -/
theorem restart_rule_propagates_stop_error_inst :
    restart_rule c10s0 1 = (Except.error "rule not found", (stop_rule c10s0 1).2) ∧
    1 ∉ (restart_rule c10s0 1).2.tasks :=
  restart_rule_propagates_stop_error c10s0 1 (by decide)

/-! # C9 development: the exit decrement underflows at zero -/

/-- C9 (confirmed).  `reset_stat` overwrites a present cache entry with the
zeroed `RuleStats::default()` (so a live handler can observe
`connections.tcp = 0` at exit), and the exit decrement
`prev_stats.connections.tcp - 1` is an unchecked u64 subtraction: from any
cached stats with `connections.tcp = 0` it wraps to `2^64 - 1` (release
semantics; in debug builds the same subtraction panics). -/
theorem tcp_conn_decrement_underflow :
    statsDefault.connections.tcp = 0 ∧
    (∀ (s : MgrState) (id : Uuid), (alookup id s.cache).isSome = true →
      alookup id (reset_stat s id).2.cache = some statsDefault) ∧
    (∀ st : RuleStats, st.connections.tcp = 0 →
      (tcpHandlerExit st).connections.tcp = 18446744073709551615) := by
  refine ⟨rfl, ?_, ?_⟩
  · intro s id h
    simp [reset_stat, h, alookup_kvinsert_self]
  · intro st h
    simp [tcpHandlerExit, u64sub, h, u64Mod]

/-- C9 witness: resetting the cached stats of the supervised rule 1 writes
zeroed stats, and decrementing from zero yields `2^64 - 1`. -/
theorem tcp_conn_decrement_underflow_inst :
    alookup 1 (reset_stat c3sup0 1).2.cache = some statsDefault ∧
    (tcpHandlerExit statsDefault).connections.tcp = 18446744073709551615 :=
  ⟨tcp_conn_decrement_underflow.2.1 c3sup0 1 (by decide),
   tcp_conn_decrement_underflow.2.2 statsDefault rfl⟩

/-! # C5 development: the decrement is skipped when the connect fails -/

/-- C5 (code bug).  The handler increments the cached `connections.tcp` on
entry, but the decrement lives only in the `Ok` arm of the
`TcpStream::connect` match (tcp.rs 135-365): when the connect fails the
handler exits early with net effect +1, never returning the counter to its
entry value — contradicting the spec's "on exit (any path), decrement".
Evaluated here from zeroed stats: the success path nets zero, the
connect-failure path leaves the counter at 1. -/
theorem tcp_conn_count_leak_on_connect_fail :
    (handle_connection_conns statsDefault true).connections.tcp = 0 ∧
    (handle_connection_conns statsDefault false).connections.tcp = 1 ∧
    handle_connection_conns statsDefault false ≠ statsDefault := by
  decide

/-! # C4 development: the TCP accept loop ignores the target policy -/

/-- C4 counterexample.  `c4Rule` is a RoundRobin rule with two distinct
targets; the accept loop's selection (tcp.rs 89) is `addrs[0]` for every
accepted connection, so two consecutive selections coincide, while the
policy-dispatch helper `select_target` — which the TCP path never calls —
would have returned the second address for the next counter value. -/
theorem tcp_target_ignores_policy_cex :
    c4Rule.target.policy = RuleTargetPolicy.roundRobin ∧
    c4Rule.target.addrs = [(10, 1), (10, 2)] ∧
    tcpAcceptTarget c4Rule = some (10, 1) ∧
    select_target c4Rule.target 0 0 = some (10, 1) ∧
    select_target c4Rule.target 1 0 = some (10, 2) ∧
    tcpAcceptTarget c4Rule ≠ select_target c4Rule.target 1 0 := by
  decide

/-- C4 (corrected).  Every accepted TCP connection is forwarded to
`target.addrs[0]` regardless of `target.policy`; the `select_target` helper
implements the documented policies (Fallback: index 0; RoundRobin: counter
modulo the address count; Random and LeastConnections: the uniformly drawn
index) but the TCP accept loop does not invoke it. -/
theorem tcp_target_always_first_addr :
    (∀ r : Rule, tcpAcceptTarget r = r.target.addrs.get? 0) ∧
    (∀ (t : RuleTarget) (c i : Nat), t.policy = RuleTargetPolicy.roundRobin →
      select_target t c i = t.addrs.get? (c % t.addrs.length)) ∧
    (∀ (t : RuleTarget) (c i : Nat), t.policy = RuleTargetPolicy.fallback →
      select_target t c i = t.addrs.get? 0) ∧
    (∀ (t : RuleTarget) (c i : Nat),
      t.policy = RuleTargetPolicy.random ∨ t.policy = RuleTargetPolicy.leastConnections →
      select_target t c i = t.addrs.get? i) := by
  refine ⟨fun r => rfl, ?_, ?_, ?_⟩
  · intro t c i h; simp [select_target, h]
  · intro t c i h; simp [select_target, h]
  · intro t c i h
    rcases h with h | h <;> simp [select_target, h]

/-- C4 witness: the amended theorem instantiated on the RoundRobin rule. -/
theorem tcp_target_always_first_addr_inst :
    tcpAcceptTarget c4Rule = c4Rule.target.addrs.get? 0 ∧
    select_target c4Rule.target 3 0 = c4Rule.target.addrs.get? (3 % c4Rule.target.addrs.length) :=
  ⟨tcp_target_always_first_addr.1 c4Rule,
   tcp_target_always_first_addr.2.1 c4Rule.target 3 0 rfl⟩

/-! # C2 development: a reconcile pass that must stop a rule deadlocks -/

/-- C2 (code bug).  In `c2s0` the manager supervises rule 1 with a running
task, but no enabled persisted rule with that id exists (it was deleted or
disabled), so the pass must stop it.  `load_rules` holds the `rules` write
lock (manager.rs 88) across its `stop_rule` calls, and `stop_rule` re-acquires
that write lock (manager.rs 230); tokio's `RwLock` is not reentrant, so the
pass blocks forever on a lock its own task holds — modelled as `none`: the
tick never completes, against the spec's requirement that every tick finishes
its reconcile. -/
theorem load_rules_stop_deadlock :
    load_rules c2s0 = none ∧ c2s0.tasks = [1] ∧ Dal.find_all c2s0.db = [] := by
  decide

/-! # C1 development: post-state of a completed reconcile pass -/

/-- C1 counterexample.  `c1s0` supervises rule 1 (task registered) whose
persisted rule is enabled but has `status = Error` (set by a failing
forwarder).  The pass completes — the stop loop skips it because an enabled
persisted rule with its id exists — yet the new supervised list excludes it
(filter drops `Error`), while its task handle survives in the task table, so
`tasks.keys() ⊆ rules.map(id)` fails after the tick. -/
theorem load_rules_tasks_not_subset_cex :
    load_rules c1s0 = some c1s1 ∧
    c1s1.tasks = [1] ∧
    c1s1.rules = [] ∧
    (c1s1.tasks.all (fun id => (c1s1.rules.map Prod.fst).contains id)) = false ∧
    c1Rule.enabled = true ∧ c1Rule.status = RuleStatus.error := by
  decide

theorem mem_tasksInsert {x k : Uuid} {l : List Uuid} (h : x ∈ tasksInsert k l) :
    x = k ∨ x ∈ l := by
  unfold tasksInsert at h
  by_cases hk : k ∈ l
  · simp only [hk, if_true] at h
    exact Or.inr h
  · simp only [hk, if_false] at h
    exact List.mem_cons.mp h

/-- `start_rule` either leaves the state unchanged (missing or disabled rule)
or, for a found enabled rule, inserts its task handle and persists
`status = Running`. -/
theorem start_rule_cases (s : MgrState) (id : Uuid) :
    (start_rule s id).2 = s ∨
    ∃ r : Rule, Dal.find_by_id s.db id = some r ∧ r.enabled = true ∧
      (start_rule s id).2 =
        { s with
          tasks := tasksInsert r.id s.tasks
          db := { s.db with kv := kvinsert id { r with status := RuleStatus.running } s.db.kv } } := by
  cases hf : Dal.find_by_id s.db id with
  | none =>
    left
    simp [start_rule, hf]
  | some r =>
    by_cases he : r.enabled = false
    · left
      simp [start_rule, hf, he]
    · have he' : r.enabled = true := by
        cases hb : r.enabled
        · exact absurd hb he
        · rfl
      refine Or.inr ⟨r, rfl, he', ?_⟩
      have ha : alookup id s.db.kv = some r := hf
      simp [start_rule, hf, he', Dal.update_status, ha]

theorem start_rule_tasks_sub (s : MgrState) (id x : Uuid) (hwf : DbWF s.db)
    (h : x ∈ (start_rule s id).2.tasks) : x = id ∨ x ∈ s.tasks := by
  rcases start_rule_cases s id with heq | ⟨r, hf, _, heq⟩
  · rw [heq] at h
    exact Or.inr h
  · rw [heq] at h
    have hrid : r.id = id := (hwf.2 _ (mem_of_alookup hf)).2
    rcases mem_tasksInsert h with he | hm
    · exact Or.inl (he.trans hrid)
    · exact Or.inr hm

theorem start_rule_db_wf (s : MgrState) (id : Uuid) (hwf : DbWF s.db) :
    DbWF (start_rule s id).2.db := by
  rcases start_rule_cases s id with heq | ⟨r, hf, _, heq⟩
  · rw [heq]; exact hwf
  · rw [heq]
    exact dbwf_kvinsert_replace s.db hwf id r _ hf rfl

theorem start_rule_db_mono (s : MgrState) (id : Uuid) (k : Uuid) (r0 : Rule)
    (h0 : Dal.find_by_id s.db k = some r0) :
    Dal.find_by_id (start_rule s id).2.db k = some r0 ∨
    Dal.find_by_id (start_rule s id).2.db k = some { r0 with status := RuleStatus.running } := by
  rcases start_rule_cases s id with heq | ⟨r, hf, _, heq⟩
  · rw [heq]; exact Or.inl h0
  · rw [heq]
    by_cases hk : k = id
    · subst hk
      have : r = r0 := by
        have := hf.symm.trans h0
        simpa using this
      subst this
      right
      show alookup k (kvinsert k { r with status := RuleStatus.running } s.db.kv) = _
      rw [alookup_kvinsert_self]
    · left
      show alookup k (kvinsert id { r with status := RuleStatus.running } s.db.kv) = some r0
      rw [alookup_kvinsert_ne hk]
      exact h0

/-- Effect of the reconcile pass's start loop: the store stays well-formed,
every task key is an old one or the id of an enabled rule of the iterated
list, and every persisted rule is preserved up to a possible `Running`
status write. -/
theorem foldStart_spec (sup : List (Uuid × Nat)) (l : List Rule) :
    ∀ acc : MgrState, DbWF acc.db →
      DbWF (foldStart sup l acc).db ∧
      (∀ x ∈ (foldStart sup l acc).tasks,
        x ∈ acc.tasks ∨ ∃ r ∈ l, r.id = x ∧ r.enabled = true) ∧
      (∀ k r0, Dal.find_by_id acc.db k = some r0 →
        Dal.find_by_id (foldStart sup l acc).db k = some r0 ∨
        Dal.find_by_id (foldStart sup l acc).db k = some { r0 with status := RuleStatus.running }) := by
  induction l with
  | nil =>
    intro acc h
    exact ⟨h, fun x hx => Or.inl hx, fun k r0 h0 => Or.inl h0⟩
  | cons a t ih =>
    intro acc h
    have hstep : foldStart sup (a :: t) acc =
        foldStart sup t (if startCond sup a then (start_rule acc a.id).2 else acc) := by
      simp [foldStart]
    by_cases hc : startCond sup a = true
    · rw [hstep, if_pos hc]
      have hwf1 : DbWF (start_rule acc a.id).2.db := start_rule_db_wf acc a.id h
      obtain ⟨ihwf, ihtasks, ihmono⟩ := ih _ hwf1
      refine ⟨ihwf, ?_, ?_⟩
      · intro x hx
        rcases ihtasks x hx with h1 | ⟨r, hr, hrid, hren⟩
        · rcases start_rule_tasks_sub acc a.id x h h1 with he | hm
          · refine Or.inr ⟨a, by simp, he ▸ rfl, ?_⟩
            have := (Bool.and_eq_true _ _).mp hc
            exact this.1
          · exact Or.inl hm
        · exact Or.inr ⟨r, by simp [hr], hrid, hren⟩
      · intro k r0 h0
        rcases start_rule_db_mono acc a.id k r0 h0 with h1 | h1
        · exact ihmono k r0 h1
        · rcases ihmono k _ h1 with h2 | h2
          · exact Or.inr h2
          · refine Or.inr ?_
            simpa using h2
    · rw [hstep, if_neg hc]
      obtain ⟨ihwf, ihtasks, ihmono⟩ := ih acc h
      refine ⟨ihwf, ?_, ihmono⟩
      intro x hx
      rcases ihtasks x hx with h1 | ⟨r, hr, hrid, hren⟩
      · exact Or.inl h1
      · exact Or.inr ⟨r, by simp [hr], hrid, hren⟩

/-- C1 (corrected).  After a completed reconcile pass, every id in the task
table either was already there before the pass or appears in the new
supervised list, and for every `(id, _)` in the supervised list the persisted
rule with that id has `enabled ∧ status ≠ Error`.  (The original subset claim
`tasks.keys() ⊆ rules.map(id)` fails: an enabled persisted rule in `Error`
keeps its stale task handle while leaving the supervised list — see the
counterexample.) -/
theorem load_rules_post_spec (s s' : MgrState) (hwf : DbWF s.db)
    (h : load_rules s = some s') :
    (∀ id ∈ s'.tasks, id ∈ s.tasks ∨ id ∈ s'.rules.map Prod.fst) ∧
    (∀ p ∈ s'.rules, ∃ r : Rule, Dal.find_by_id s'.db p.1 = some r ∧
      r.enabled = true ∧ r.status ≠ RuleStatus.error) := by
  simp only [load_rules] at h
  split at h
  · exact absurd h (by simp)
  · split at h
    · exact absurd h (by simp)
    · rw [Option.some.injEq] at h
      subst h
      obtain ⟨hwf', htasks, hmono⟩ :=
        foldStart_spec s.rules
          ((Dal.find_all s.db).filter (fun r => r.status ≠ RuleStatus.error)) s hwf
      constructor
      · intro id hid
        rcases htasks id hid with h1 | ⟨r, hr, hrid, hren⟩
        · exact Or.inl h1
        · refine Or.inr ?_
          have hr' := List.mem_filter.mp hr
          have hst : r.status ≠ RuleStatus.error := by simpa using hr'.2
          refine List.mem_map.mpr ⟨(r.id, r.digest_config), ?_, hrid⟩
          refine List.mem_map.mpr ⟨r, ?_, rfl⟩
          refine List.mem_filter.mpr ⟨hr'.1, ?_⟩
          simp [hren, hst]
      · intro p hp
        obtain ⟨r, hrmem, hpr⟩ := List.mem_map.mp hp
        have hr' := List.mem_filter.mp hrmem
        have hcond := (Bool.and_eq_true _ _).mp hr'.2
        have hren : r.enabled = true := hcond.1
        have hst : r.status ≠ RuleStatus.error := by
          have := hcond.2
          simpa using this
        obtain ⟨k, hkmem, hk⟩ := List.mem_filterMap.mp hr'.1
        have hrid : r.id = k := (hwf.2 _ (mem_of_alookup hk)).2
        have hfind : Dal.find_by_id s.db r.id = some r := by
          show alookup r.id s.db.kv = some r
          rw [hrid]
          exact hk
        have hp1 : p.1 = r.id := by rw [← hpr]
        rcases hmono r.id r hfind with h1 | h1
        · exact ⟨r, by rw [hp1]; exact h1, hren, hst⟩
        · refine ⟨{ r with status := RuleStatus.running }, by rw [hp1]; exact h1, hren, ?_⟩
          simp

/-- C1 witness: a state supervising one enabled running rule reconciles to
itself, satisfying both post-conditions. -/
theorem load_rules_post_spec_inst :
    (∀ id ∈ c3sup0.tasks, id ∈ c3sup0.tasks ∨ id ∈ c3sup0.rules.map Prod.fst) ∧
    (∀ p ∈ c3sup0.rules, ∃ r : Rule, Dal.find_by_id c3sup0.db p.1 = some r ∧
      r.enabled = true ∧ r.status ≠ RuleStatus.error) :=
  load_rules_post_spec c3sup0 c3sup0 (by decide) (by decide)

/-! # C3 development: flush_stats only flushes supervised cached entries -/

theorem alookup_update_statsD_ne (db : DbState) (id x : Uuid) (st : RuleStats)
    (hne : x ≠ id) : alookup x (update_statsD db id st).kv = alookup x db.kv := by
  unfold update_statsD Dal.update_stats
  cases h : alookup id db.kv with
  | none => rfl
  | some r =>
    simp only [Option.getD_some]
    exact alookup_kvinsert_ne hne _ _

theorem alookup_update_statsD_self (db : DbState) (id : Uuid) (st : RuleStats) (r : Rule)
    (h : alookup id db.kv = some r) :
    alookup id (update_statsD db id st).kv = some { r with stats := st } := by
  unfold update_statsD Dal.update_stats
  rw [h]
  simp only [Option.getD_some]
  exact alookup_kvinsert_self _ _ _

theorem flushFold_other (dbRules : List Rule) (l : List (Uuid × RuleStats)) (id : Uuid)
    (h : id ∉ l.map Prod.fst) :
    ∀ db : DbState, alookup id (flushFold dbRules l db).kv = alookup id db.kv := by
  induction l with
  | nil => intro db; rfl
  | cons p t ih =>
    intro db
    have hne : id ≠ p.1 := by
      intro he
      exact h (by simp [he])
    have ht : id ∉ t.map Prod.fst := fun hm => h (by simp [hm])
    have hstep : flushFold dbRules (p :: t) db =
        flushFold dbRules t
          (if dbRules.any (fun r => r.id == p.1) then update_statsD db p.1 p.2 else db) := by
      simp [flushFold]
    rw [hstep]
    by_cases hg : (dbRules.any fun r => r.id == p.1) = true
    · rw [if_pos hg, ih ht, alookup_update_statsD_ne db p.1 id p.2 hne]
    · rw [if_neg hg, ih ht]

theorem flushFold_hit (dbRules : List Rule) (l : List (Uuid × RuleStats)) (id : Uuid)
    (st : RuleStats) (hnd : (l.map Prod.fst).Nodup) (hmem : (id, st) ∈ l)
    (hguard : (dbRules.any fun r => r.id == id) = true) :
    ∀ (db : DbState) (r : Rule), alookup id db.kv = some r →
      alookup id (flushFold dbRules l db).kv = some { r with stats := st } := by
  induction l with
  | nil => cases hmem
  | cons p t ih =>
    intro db r hr
    simp only [List.map_cons, List.nodup_cons] at hnd
    have hstep : flushFold dbRules (p :: t) db =
        flushFold dbRules t
          (if dbRules.any (fun r => r.id == p.1) then update_statsD db p.1 p.2 else db) := by
      simp [flushFold]
    rw [hstep]
    rcases List.mem_cons.mp hmem with he | htm
    · have hp : p = (id, st) := he.symm
      subst hp
      rw [if_pos hguard]
      have hafter : alookup id (update_statsD db id st).kv = some { r with stats := st } :=
        alookup_update_statsD_self db id st r hr
      rw [flushFold_other dbRules t id hnd.1 _]
      exact hafter
    · have hpne : p.1 ≠ id := by
        intro he1
        exact hnd.1 (he1 ▸ List.mem_map.mpr ⟨(id, st), htm, rfl⟩)
      have hidne : id ≠ p.1 := fun e => hpne e.symm
      by_cases hg : (dbRules.any fun r => r.id == p.1) = true
      · rw [if_pos hg]
        exact ih hnd.2 htm _ r (by rw [alookup_update_statsD_ne db p.1 id p.2 hidne]; exact hr)
      · rw [if_neg hg]
        exact ih hnd.2 htm db r hr

/-- C3 counterexample.  Rule 1 is persisted (zero persisted bandwidth) and
cached with bandwidth 5, but is not currently supervised; `flush_stats` goes
through `get_stats()`, which filters the cache to supervised rules, so the
entry is skipped and the persisted bandwidth stays 0 ≠ 5 — against the
claim that every cached entry of a persisted rule is flushed. -/
theorem flush_stats_skips_unsupervised_cex :
    alookup 1 c3cex0.cache = some c3st5 ∧
    c3st5.bandwidth = 5 ∧
    Dal.find_by_id c3cex0.db 1 = some c3Rule ∧
    c3cex0.rules = [] ∧
    (Dal.find_by_id (flush_stats c3cex0).db 1).map (fun r => r.stats.bandwidth) = some 0 ∧
    ¬((Dal.find_by_id (flush_stats c3cex0).db 1).map (fun r => r.stats.bandwidth) = some 5) := by
  decide

/-- C3 (corrected).  `flush_stats` calls `update_stats` exactly for the
cached entries of rules that are both *currently supervised* and persisted:
after a flush, the persisted stats (and in particular `stats.bandwidth`)
equal the cached value for every rule that is supervised, cached and
persisted.  Cached entries of persisted rules that are not supervised are
filtered out by `get_stats()` and are not flushed (see the counterexample). -/
theorem flush_stats_supervised_roundtrip (s : MgrState) (id : Uuid) (st : RuleStats)
    (r : Rule) (hwf : DbWF s.db) (hnd : (s.cache.map Prod.fst).Nodup)
    (hc : alookup id s.cache = some st)
    (hsup : id ∈ s.rules.map Prod.fst)
    (hr : r ∈ Dal.find_all s.db) (hrid : r.id = id) :
    Dal.find_by_id (flush_stats s).db id = some { r with stats := st } := by
  have hcm : (id, st) ∈ s.cache := mem_of_alookup hc
  have hsupb : (s.rules.any fun q => q.1 == id) = true := by
    obtain ⟨q, hq, hq1⟩ := List.mem_map.mp hsup
    exact List.any_eq_true.mpr ⟨q, hq, by simp [hq1]⟩
  have hgm : (id, st) ∈ get_stats s := by
    refine List.mem_filter.mpr ⟨hcm, ?_⟩
    simpa using hsupb
  have hgnd : ((get_stats s).map Prod.fst).Nodup := by
    have hsub : List.Sublist ((get_stats s).map Prod.fst) (s.cache.map Prod.fst) :=
      (List.filter_sublist s.cache).map Prod.fst
    exact hnd.sublist hsub
  have hguard : ((Dal.find_all s.db).any fun r' => r'.id == id) = true :=
    List.any_eq_true.mpr ⟨r, hr, by simp [hrid]⟩
  obtain ⟨k, hkmem, hk⟩ := List.mem_filterMap.mp hr
  have hrk : r.id = k := (hwf.2 _ (mem_of_alookup hk)).2
  have hfind : alookup id s.db.kv = some r := by
    rw [← hrid, hrk]
    exact hk
  show alookup id (flushFold (Dal.find_all s.db) (get_stats s) s.db).kv = _
  exact flushFold_hit (Dal.find_all s.db) (get_stats s) id st hgnd hgm hguard s.db r hfind

/-- C3 witness: the amended round-trip instantiated on a state where rule 1
is supervised, cached (bandwidth 5) and persisted. -/
theorem flush_stats_supervised_roundtrip_inst :
    Dal.find_by_id (flush_stats c3sup0).db 1 = some { c3Rule with stats := c3st5 } :=
  flush_stats_supervised_roundtrip c3sup0 1 c3st5 c3Rule (by decide) (by decide)
    (by decide) (by decide) (by decide) (by decide)

/-! # C8 development: UDP fragmentation on EMSGSIZE -/

theorem sendFragmentsAux_eq_takeWhile (send : SendOracle) :
    ∀ (fuel : Nat) (d : List Nat),
      sendFragmentsAux send fuel d =
        (chunksOfAux 8192 fuel d).takeWhile (fun c => (send c).isNone) := by
  intro fuel
  induction fuel with
  | zero => intro d; rfl
  | succ f ih =>
    intro d
    cases d with
    | nil => rfl
    | cons a t =>
      have h1 : sendFragmentsAux send (f + 1) (a :: t) =
          (match send ((a :: t).take 8192) with
           | none => ((a :: t).take 8192) :: sendFragmentsAux send f ((a :: t).drop 8192)
           | some _ => []) := rfl
      have h2 : chunksOfAux 8192 (f + 1) (a :: t) =
          ((a :: t).take 8192) :: chunksOfAux 8192 f ((a :: t).drop 8192) := rfl
      rw [h1, h2, List.takeWhile_cons]
      cases hs : send ((a :: t).take 8192) with
      | none => simp [ih]
      | some e => simp

theorem chunksOfAux_flatten (n : Nat) (hn : 0 < n) :
    ∀ (fuel : Nat) (d : List Nat), d.length ≤ fuel → (chunksOfAux n fuel d).flatten = d := by
  intro fuel
  induction fuel with
  | zero =>
    intro d h
    have hd : d = [] := List.length_eq_zero.mp (Nat.le_zero.mp h)
    subst hd
    rfl
  | succ f ih =>
    intro d h
    cases d with
    | nil => rfl
    | cons a t =>
      have hlen : (List.drop n (a :: t)).length ≤ f := by
        rw [List.length_drop]
        simp only [List.length_cons] at h ⊢
        omega
      simp only [chunksOfAux, List.flatten_cons]
      rw [ih _ hlen]
      exact List.take_append_drop n (a :: t)

theorem chunksOfAux_mem (n : Nat) (hn : 0 < n) :
    ∀ (fuel : Nat) (d : List Nat), ∀ c ∈ chunksOfAux n fuel d, c ≠ [] ∧ c.length ≤ n := by
  intro fuel
  induction fuel with
  | zero => intro d c hc; simp [chunksOfAux] at hc
  | succ f ih =>
    intro d c hc
    cases d with
    | nil => simp [chunksOfAux] at hc
    | cons a t =>
      simp only [chunksOfAux, List.mem_cons] at hc
      rcases hc with he | hm
      · subst he
        obtain ⟨m, hm⟩ := Nat.exists_eq_succ_of_ne_zero (Nat.pos_iff_ne_zero.mp hn)
        subst hm
        refine ⟨by simp [List.take_succ_cons], ?_⟩
        simp
      · exact ih _ c hm

theorem chunksOfAux_get? (n : Nat) (hn : 0 < n) :
    ∀ (i fuel : Nat) (d : List Nat), d.length ≤ fuel → n * i < d.length →
      (chunksOfAux n fuel d).get? i = some ((d.drop (n * i)).take n) := by
  intro i
  induction i with
  | zero =>
    intro fuel d hf hlt
    rw [Nat.mul_zero] at hlt
    cases d with
    | nil => simp at hlt
    | cons a t =>
      cases fuel with
      | zero => simp at hf
      | succ f => simp [chunksOfAux]
  | succ i ih =>
    intro fuel d hf hlt
    cases d with
    | nil => simp at hlt
    | cons a t =>
      cases fuel with
      | zero => simp at hf
      | succ f =>
        have hstep : (chunksOfAux n (f + 1) (a :: t)).get? (i + 1) =
            (chunksOfAux n f (List.drop n (a :: t))).get? i := by
          simp [chunksOfAux]
        rw [hstep]
        have hlen : (List.drop n (a :: t)).length ≤ f := by
          rw [List.length_drop]
          simp only [List.length_cons] at hf ⊢
          omega
        have hlt' : n * i < (List.drop n (a :: t)).length := by
          rw [List.length_drop]
          rw [Nat.mul_succ] at hlt
          simp only [List.length_cons] at hlt ⊢
          omega
        rw [ih f _ hlen hlt']
        rw [List.drop_drop, Nat.mul_succ, Nat.add_comm (n * i) n, Nat.add_comm n (n * i)]

/-- C8 (confirmed).  For a payload of more than 16000 bytes received from the
client channel whose single send fails: if `raw_os_error()` is 40 (EMSGSIZE),
the session sends the payload as consecutive 8192-byte fragments in order
(the i-th fragment is bytes `[8192·i, 8192·i + 8192)`, every fragment is
nonempty and at most — and, while a full fragment remains, exactly — 8192
bytes, and together they rebuild the payload), stops at the first
fragment-send error (the sent fragments are the longest successful prefix of
the chunk list), and the session continues; any other send error terminates
the session loop. -/
theorem udp_fragmentation_spec (send : SendOracle) (data : List Nat) (e : SendErr)
    (hlen : data.length > 16000) (hsend : send data = some e) :
    (e.rawOsError = some 40 →
      (inboundStep send data).2 = SessionStep.cont ∧
      (inboundStep send data).1 =
        (chunksOf 8192 data).takeWhile (fun c => (send c).isNone) ∧
      (chunksOf 8192 data).flatten = data ∧
      (∀ c ∈ chunksOf 8192 data, c ≠ [] ∧ c.length ≤ 8192) ∧
      (∀ i : Nat, 8192 * i < data.length →
        (chunksOf 8192 data).get? i = some ((data.drop (8192 * i)).take 8192)) ∧
      (∀ i : Nat, 8192 * (i + 1) ≤ data.length →
        ((chunksOf 8192 data).get? i).map List.length = some 8192)) ∧
    (∀ code : Int, e.rawOsError = some code → code ≠ 40 →
      inboundStep send data = ([], SessionStep.halt)) ∧
    (e.rawOsError = none → inboundStep send data = ([], SessionStep.halt)) := by
  have hn : 0 < 8192 := by norm_num
  refine ⟨?_, ?_, ?_⟩
  · intro h40
    have hstep : inboundStep send data = (sendFragments send data, SessionStep.cont) := by
      simp [inboundStep, hlen, hsend, h40]
    refine ⟨by rw [hstep], ?_, ?_, ?_, ?_, ?_⟩
    · rw [hstep]
      exact sendFragmentsAux_eq_takeWhile send data.length data
    · exact chunksOfAux_flatten 8192 hn data.length data le_rfl
    · exact fun c hc => chunksOfAux_mem 8192 hn data.length data c hc
    · exact fun i hi => chunksOfAux_get? 8192 hn i data.length data le_rfl hi
    · intro i hi
      have hlt : 8192 * i < data.length := by
        rw [Nat.mul_succ] at hi
        omega
      rw [show chunksOf 8192 data = chunksOfAux 8192 data.length data from rfl]
      rw [chunksOfAux_get? 8192 hn i data.length data le_rfl hlt]
      simp only [Option.map_some']
      rw [List.length_take, List.length_drop]
      rw [Nat.mul_succ] at hi
      congr 1
      omega
  · intro code hcode hne
    have : ¬(code = 40) := hne
    simp [inboundStep, hlen, hsend, hcode, this]
  · intro hnone
    simp [inboundStep, hlen, hsend, hnone]

/-- C8 witness: a 16001-byte payload under an oracle failing large sends with
EMSGSIZE fragments and continues; the chunks rebuild the payload. -/
theorem udp_fragmentation_spec_inst :
    (inboundStep sendOracle0 data0).2 = SessionStep.cont ∧
    (chunksOf 8192 data0).flatten = data0 := by
  have hlen : data0.length > 16000 := by
    unfold data0
    rw [List.length_replicate]
    norm_num
  have hsend : sendOracle0 data0 = some ⟨some 40⟩ := by
    unfold sendOracle0
    rw [if_pos hlen]
  have h := udp_fragmentation_spec sendOracle0 data0 ⟨some 40⟩ hlen hsend
  exact ⟨(h.1 rfl).1, (h.1 rfl).2.2.1⟩
